import Mathlib

/-!
# RetailFlow POS — verification of the inventory/receipt consistency engine

Shallow embedding of `src/pos_app.py`.

Modelling conventions:
* Python `int` is `Int` (and receipt numbers, which SQLite allocates as
  positive rowids, are `Nat`).
* Python `float` prices/cash are modelled as `ℚ` (exact arithmetic); the
  source performs only sums, products and subtraction on them.
* The in-memory inventory dict `Dict[str, Item]` is an association list
  `List Item` keyed by `Item.upc` (the dict has one entry per key; lookup
  finds the first matching entry, update rewrites every matching entry,
  which on unique-key lists coincides with the dict).  Python raises
  `KeyError` when indexing a missing key; theorems about paths that index
  the dict carry the corresponding existence precondition.
* The SQLite store is a record: the `receipts` table is a list of
  `(receipt_no, canceled)` rows in insertion order, `receipt_lines` a list
  of rows in insertion order, and `seq` the AUTOINCREMENT counter (the
  largest receipt number ever assigned; `lastrowid` of a fresh insert is
  `seq + 1`).
* Interactive rejection paths (re-prompting loops, `print` + `return`)
  are modelled as outcome constructors paired with the unchanged state.
-/

/-- `Item` dataclass of `pos_app.py` (lines 14-25). -/
structure Item where
  upc : String
  description : String
  max_qty : Int
  order_threshold : Int
  replenishment_qty : Int
  on_hand : Int
  unit_price : ℚ
  deriving DecidableEq, Repr

/-- `Item.update_on_hand`: `self.on_hand += delta` (line 24-25). -/
def Item.update_on_hand (it : Item) (delta : Int) : Item :=
  { it with on_hand := it.on_hand + delta }

/-- `SaleLine` dataclass (lines 28-33). -/
structure SaleLine where
  upc : String
  description : String
  unit_price : ℚ
  qty : Int
  deriving DecidableEq, Repr

/-- A row of the `receipt_lines` table (lines 53-62). -/
structure ReceiptLine where
  receipt_no : Nat
  upc : String
  description : String
  unit_price : ℚ
  qty : Int
  deriving DecidableEq, Repr

/-- Projection of a `receipt_lines` row back to a `SaleLine`, as done by
`get_receipt`'s SELECT (lines 86-92). -/
def ReceiptLine.toSaleLine (l : ReceiptLine) : SaleLine :=
  ⟨l.upc, l.description, l.unit_price, l.qty⟩

/-- The row a sale line becomes in `receipt_lines` — the tuple
`(receipt_no, l.upc, l.description, l.unit_price, l.qty)` of the INSERT
at lines 70-73. -/
def SaleLine.toRow (no : Nat) (l : SaleLine) : ReceiptLine :=
  ⟨no, l.upc, l.description, l.unit_price, l.qty⟩

/-- The SQLite database owned by `SalesStore`: the `receipts` table
(rows `(receipt_no, canceled)` in insertion order), the `receipt_lines`
table, and the AUTOINCREMENT state (largest receipt number ever
assigned). -/
structure Store where
  seq : Nat
  receipts : List (Nat × Bool)
  lines : List ReceiptLine
  deriving DecidableEq, Repr

/-- The freshly created database of `SalesStore._init_db` (lines 44-63). -/
def Store.init : Store := ⟨0, [], []⟩

/-- `SalesStore.create_receipt` (lines 65-75): inserts a receipt row with
`canceled = 0`, obtaining `lastrowid = seq + 1` from AUTOINCREMENT, then
inserts one `receipt_lines` row per sale line; returns the receipt number
and the updated store. -/
def Store.create_receipt (st : Store) (ls : List SaleLine) : Nat × Store :=
  let no := st.seq + 1
  (no, { seq := no,
         receipts := st.receipts ++ [(no, false)],
         lines := st.lines ++ ls.map (SaleLine.toRow no) })

/-- The `canceled` flag returned by the first query of
`SalesStore.get_receipt` (lines 80-84): `none` models the
`ValueError("Receipt not found")` path. -/
def Store.canceledOf (st : Store) (no : Nat) : Option Bool :=
  (st.receipts.find? (fun r => r.1 == no)).map (fun r => r.2)

/-- The rows of `receipt_lines` belonging to one receipt, in insertion
order — the second query of `SalesStore.get_receipt` (lines 86-90). -/
def Store.linesOf (st : Store) (no : Nat) : List ReceiptLine :=
  st.lines.filter (fun l => l.receipt_no == no)

/-- `SalesStore.get_receipt` (lines 77-93): `none` models the raised
`ValueError`; otherwise the canceled flag and the receipt's lines. -/
def Store.get_receipt (st : Store) (no : Nat) : Option (Bool × List SaleLine) :=
  match st.canceledOf no with
  | none => none
  | some canceled => some (canceled, (st.linesOf no).map ReceiptLine.toSaleLine)

/-- `SalesStore.set_canceled` (lines 95-99): unconditional
`UPDATE receipts SET canceled = 1 WHERE receipt_no = ?`. -/
def Store.set_canceled (st : Store) (no : Nat) : Store :=
  { st with receipts := st.receipts.map (fun r => if r.1 == no then (r.1, true) else r) }

/-- `SalesStore.update_line_qty` (lines 101-114): if `new_qty <= 0`,
`DELETE FROM receipt_lines WHERE receipt_no = ? AND upc = ?`; otherwise
`UPDATE receipt_lines SET qty = ? WHERE receipt_no = ? AND upc = ?`.
Both statements match every row with that `(receipt_no, upc)` pair. -/
def Store.update_line_qty (st : Store) (no : Nat) (u : String) (new_qty : Int) : Store :=
  if new_qty ≤ 0 then
    { st with lines := st.lines.filter (fun l => !(l.receipt_no == no && l.upc == u)) }
  else
    { st with lines := st.lines.map (fun l =>
        if l.receipt_no == no && l.upc == u then { l with qty := new_qty } else l) }

/-- The mutable state of `POSApp` that the coordinators touch: the
in-memory inventory dict and the sales store. -/
structure AppState where
  inventory : List Item
  store : Store
  deriving DecidableEq, Repr

/-- Dict lookup `self.inventory[upc]` / membership `upc in self.inventory`
on the association-list model. -/
def findItem (inv : List Item) (u : String) : Option Item :=
  inv.find? (fun it => it.upc == u)

/-- The `on_hand` count an observer reads for a UPC. -/
def onHand? (inv : List Item) (u : String) : Option Int :=
  (findItem inv u).map Item.on_hand

/-- `self.inventory[u].update_on_hand(delta)`: rewrites the entry for `u`
in place (a no-op when `u` is absent, where Python would raise
`KeyError`; theorems touching this path assume the key exists). -/
def updOnHand : List Item → String → Int → List Item
  | [], _, _ => []
  | it :: tl, u, delta =>
    (if it.upc == u then it.update_on_hand delta else it) :: updOnHand tl u delta

/-- `POSApp.calc_total` (lines 201-202): `sum(l.unit_price * l.qty)`. -/
def calc_total (ls : List SaleLine) : ℚ :=
  (ls.map (fun l => l.unit_price * (l.qty : ℚ))).sum

/-- The loop `for l in sale_lines: self.inventory[l.upc].update_on_hand(f l)`
(sale decrement at line 265-266 with `f = -qty`, full-return increment at
line 307-308 with `f = qty`). -/
def applyAll (inv : List Item) (ls : List SaleLine) (f : SaleLine → Int) : List Item :=
  ls.foldl (fun i l => updOnHand i l.upc (f l)) inv

/-- Outcome of the checkout step of `start_sale`. -/
inductive SaleOutcome where
  | committed (receipt_no : Nat) (change : ℚ)
  | insufficientTender
  | emptySale
  deriving DecidableEq, Repr

/-- The checkout branch of `POSApp.start_sale` (lines 247-274): reject an
empty sale; compute the total; a cash amount below the total is refused
(the code re-prompts — modelled as a rejection leaving the state alone);
otherwise decrement inventory per line, create the receipt, and return
the change. -/
def checkout (s : AppState) (ls : List SaleLine) (cash : ℚ) : SaleOutcome × AppState :=
  if ls.isEmpty then (.emptySale, s)
  else
    let total := calc_total ls
    if cash < total then (.insufficientTender, s)
    else
      let inv := applyAll s.inventory ls (fun l => -l.qty)
      let (no, st) := s.store.create_receipt ls
      (.committed no (cash - total), ⟨inv, st⟩)

/-- Outcome of `POSApp.process_return`. -/
inductive RetOutcome where
  | committed
  | notFound
  | alreadyCanceled
  | invalidInput
  | invalidQty
  deriving DecidableEq, Repr

/-- Choice 1 of `POSApp.process_return` (lines 291-312): full return.
Look up the receipt (`notFound` on the `ValueError`), refuse an already
canceled receipt, otherwise restore `qty` units per line and set the
canceled flag. -/
def returnAll (s : AppState) (no : Nat) : RetOutcome × AppState :=
  match s.store.get_receipt no with
  | none => (.notFound, s)
  | some (canceled, ls) =>
    if canceled then (.alreadyCanceled, s)
    else
      let inv := applyAll s.inventory ls (fun l => l.qty)
      (.committed, ⟨inv, s.store.set_canceled no⟩)

/-- Choice 2 of `POSApp.process_return` (lines 314-338): partial return.
Look up the receipt, refuse a canceled one, select a line by index
(`invalidInput` on the caught `IndexError`), refuse
`return_qty <= 0 or return_qty > line.qty`, otherwise restore
`return_qty` units and overwrite the line quantity with
`line.qty - return_qty`. -/
def returnPartial (s : AppState) (no : Nat) (idx : Nat) (return_qty : Int) :
    RetOutcome × AppState :=
  match s.store.get_receipt no with
  | none => (.notFound, s)
  | some (canceled, ls) =>
    if canceled then (.alreadyCanceled, s)
    else
      match ls[idx]? with
      | none => (.invalidInput, s)
      | some line =>
        if return_qty ≤ 0 || line.qty < return_qty then (.invalidQty, s)
        else
          let inv := updOnHand s.inventory line.upc return_qty
          let st := s.store.update_line_qty no line.upc (line.qty - return_qty)
          (.committed, ⟨inv, st⟩)

/-! ## Inventory lemmas -/

/-- Quantity aggregated over the sale lines of one UPC, weighted by `f`. -/
def sumQty (ls : List SaleLine) (u : String) (f : SaleLine → Int) : Int :=
  ((ls.filter (fun l => l.upc == u)).map f).sum

/-- `saleQty L u`: total units of UPC `u` on the sale lines `L`. -/
def saleQty (ls : List SaleLine) (u : String) : Int :=
  sumQty ls u (fun l => l.qty)

theorem onHand?_updOnHand_self (inv : List Item) (u : String) (d : Int) :
    onHand? (updOnHand inv u d) u = (onHand? inv u).map (fun x => x + d) := by
  induction inv with
  | nil => rfl
  | cons it tl ih =>
    cases hb : it.upc == u with
    | true =>
      simp [updOnHand, onHand?, findItem, List.find?_cons, hb, Item.update_on_hand]
    | false =>
      simpa [updOnHand, onHand?, findItem, List.find?_cons, hb] using ih

theorem onHand?_updOnHand_ne (inv : List Item) (u v : String) (d : Int) (h : v ≠ u) :
    onHand? (updOnHand inv u d) v = onHand? inv v := by
  induction inv with
  | nil => rfl
  | cons it tl ih =>
    cases hb : it.upc == u with
    | true =>
      have hu : it.upc = u := by simpa using hb
      have hbv : (it.upc == v) = false := by
        simp only [hu, beq_eq_false_iff_ne, ne_eq]
        exact fun hc => h hc.symm
      simpa [updOnHand, onHand?, findItem, List.find?_cons, hb, hbv,
        Item.update_on_hand] using ih
    | false =>
      cases hbv : it.upc == v with
      | true => simp [updOnHand, onHand?, findItem, List.find?_cons, hb, hbv]
      | false => simpa [updOnHand, onHand?, findItem, List.find?_cons, hb, hbv] using ih

theorem sumQty_cons (l : SaleLine) (ls : List SaleLine) (u : String) (f : SaleLine → Int) :
    sumQty (l :: ls) u f = (if l.upc = u then f l else 0) + sumQty ls u f := by
  by_cases h : l.upc = u <;> simp [sumQty, List.filter_cons, h]

theorem onHand?_applyAll (ls : List SaleLine) (inv : List Item) (f : SaleLine → Int)
    (u : String) :
    onHand? (applyAll inv ls f) u = (onHand? inv u).map (fun x => x + sumQty ls u f) := by
  induction ls generalizing inv with
  | nil =>
    rw [show applyAll inv [] f = inv from rfl]
    cases h : onHand? inv u <;> simp [sumQty, h]
  | cons l tl ih =>
    have step : applyAll inv (l :: tl) f = applyAll (updOnHand inv l.upc (f l)) tl f := rfl
    rw [step, ih, sumQty_cons]
    by_cases h : l.upc = u
    · subst h
      rw [onHand?_updOnHand_self]
      cases onHand? inv l.upc <;> simp [add_assoc]
    · rw [onHand?_updOnHand_ne inv l.upc u (f l) (fun hc => h hc.symm)]
      simp [h]

/-- The loop at lines 265-266 of the source: what a committed sale does
to every on-hand count, per UPC. -/
theorem onHand?_sale_decrement (inv : List Item) (ls : List SaleLine) (u : String) :
    onHand? (applyAll inv ls (fun l => -l.qty)) u =
      (onHand? inv u).map (fun x => x - saleQty ls u) := by
  rw [onHand?_applyAll]
  have hneg : ∀ xs : List SaleLine,
      (xs.map (fun l => -l.qty)).sum = -(xs.map (fun l => l.qty)).sum := by
    intro xs
    induction xs with
    | nil => simp
    | cons x t iht => simp [iht]; ring
  have : sumQty ls u (fun l => -l.qty) = -saleQty ls u := by
    simp only [sumQty, saleQty]
    exact hneg _
  rw [this]
  cases onHand? inv u <;> simp [sub_eq_add_neg]

/-! ## Store lemmas -/

/-- Well-formedness that SQLite's AUTOINCREMENT maintains for the real
database: every stored receipt number (and every line's receipt number)
is at most the allocation counter. -/
def Store.wf (st : Store) : Prop :=
  (∀ r ∈ st.receipts, r.1 ≤ st.seq) ∧ (∀ l ∈ st.lines, l.receipt_no ≤ st.seq)

theorem Store.wf_init : Store.init.wf := by
  constructor <;> simp [Store.init]

theorem Store.wf_create (st : Store) (L : List SaleLine) (h : st.wf) :
    (st.create_receipt L).2.wf := by
  obtain ⟨h1, h2⟩ := h
  constructor
  · intro r hr
    simp only [Store.create_receipt, List.mem_append, List.mem_singleton] at hr
    rcases hr with hr | hr
    · have := h1 r hr
      simp only [Store.create_receipt]
      omega
    · subst hr
      simp [Store.create_receipt]
  · intro l hl
    simp only [Store.create_receipt, List.mem_append, List.mem_map] at hl
    rcases hl with hl | ⟨a, _, rfl⟩
    · have := h2 l hl
      simp only [Store.create_receipt]
      omega
    · simp [Store.create_receipt, SaleLine.toRow]

theorem Store.wf_set_canceled (st : Store) (no : Nat) (h : st.wf) :
    (st.set_canceled no).wf := by
  obtain ⟨h1, h2⟩ := h
  constructor
  · intro r hr
    simp only [Store.set_canceled, List.mem_map] at hr
    obtain ⟨a, ha, rfl⟩ := hr
    cases hb : a.1 == no <;> simp [hb] <;> exact h1 a ha
  · exact h2

theorem Store.wf_update_line_qty (st : Store) (no : Nat) (u : String) (q : Int)
    (h : st.wf) : (st.update_line_qty no u q).wf := by
  obtain ⟨h1, h2⟩ := h
  unfold Store.update_line_qty
  split
  · exact ⟨h1, fun l hl => h2 l (List.mem_of_mem_filter hl)⟩
  · refine ⟨h1, fun l hl => ?_⟩
    simp only [List.mem_map] at hl
    obtain ⟨a, ha, rfl⟩ := hl
    cases hb : a.receipt_no == no && a.upc == u <;> simp [hb] <;> exact h2 a ha

theorem Store.canceledOf_create_self (st : Store) (L : List SaleLine) (h : st.wf) :
    (st.create_receipt L).2.canceledOf (st.create_receipt L).1 = some false := by
  unfold Store.create_receipt Store.canceledOf
  simp only
  rw [List.find?_append]
  have h1 : st.receipts.find? (fun r => r.1 == st.seq + 1) = none := by
    rw [List.find?_eq_none]
    intro r hr
    have := h.1 r hr
    simp only [beq_iff_eq]
    omega
  simp [h1]

theorem Store.linesOf_create_self (st : Store) (L : List SaleLine) (h : st.wf) :
    (st.create_receipt L).2.linesOf (st.create_receipt L).1 =
      L.map (SaleLine.toRow (st.seq + 1)) := by
  unfold Store.create_receipt Store.linesOf
  simp only
  rw [List.filter_append]
  have h1 : st.lines.filter (fun l => l.receipt_no == st.seq + 1) = [] := by
    rw [List.filter_eq_nil_iff]
    intro l hl
    have hle := h.2 l hl
    simp only [beq_iff_eq]
    omega
  have h2 : (L.map (SaleLine.toRow (st.seq + 1))).filter
      (fun l => l.receipt_no == st.seq + 1) = L.map (SaleLine.toRow (st.seq + 1)) := by
    rw [List.filter_eq_self]
    intro a ha
    simp only [List.mem_map] at ha
    obtain ⟨b, _, rfl⟩ := ha
    simp [SaleLine.toRow]
  rw [h1, h2, List.nil_append]

theorem Store.get_receipt_create_self (st : Store) (L : List SaleLine) (h : st.wf) :
    (st.create_receipt L).2.get_receipt (st.create_receipt L).1 = some (false, L) := by
  unfold Store.get_receipt
  rw [Store.canceledOf_create_self st L h, Store.linesOf_create_self st L h]
  rw [List.map_map]
  have hc : (ReceiptLine.toSaleLine ∘ SaleLine.toRow (st.seq + 1)) = id := by
    funext l
    rfl
  rw [hc, List.map_id]

theorem Store.canceledOf_set_canceled_self (st : Store) (no : Nat) :
    (st.set_canceled no).canceledOf no = (st.canceledOf no).map (fun _ => true) := by
  obtain ⟨seq, rs, ls⟩ := st
  unfold Store.set_canceled Store.canceledOf
  simp only
  induction rs with
  | nil => rfl
  | cons r tl ih =>
    cases hb : r.1 == no with
    | true =>
      rw [List.map_cons, if_pos hb,
        @List.find?_cons_of_pos _ (fun r => r.1 == no) (r.1, true) _ hb,
        @List.find?_cons_of_pos _ (fun r => r.1 == no) r _ hb]
      rfl
    | false =>
      have hb' : ¬ ((fun r : Nat × Bool => r.1 == no) r = true) := by simp [hb]
      rw [List.map_cons, if_neg hb',
        @List.find?_cons_of_neg _ (fun r => r.1 == no) r _ hb',
        @List.find?_cons_of_neg _ (fun r => r.1 == no) r _ hb']
      exact ih

theorem Store.linesOf_set_canceled (st : Store) (no n : Nat) :
    (st.set_canceled no).linesOf n = st.linesOf n := rfl

theorem Store.canceledOf_update_line_qty (st : Store) (no : Nat) (u : String) (q : Int)
    (n : Nat) : (st.update_line_qty no u q).canceledOf n = st.canceledOf n := by
  unfold Store.update_line_qty
  split <;> rfl

theorem Store.linesOf_update_line_qty_self (st : Store) (no : Nat) (u : String) (q : Int) :
    (st.update_line_qty no u q).linesOf no =
      (if q ≤ 0 then (st.linesOf no).filter (fun l => !(l.upc == u))
       else (st.linesOf no).map (fun l => if l.upc == u then { l with qty := q } else l)) := by
  unfold Store.update_line_qty Store.linesOf
  split
  · simp only
    rw [List.filter_filter, List.filter_filter]
    refine List.filter_congr fun a _ => ?_
    cases hA : a.receipt_no == no <;> cases hB : a.upc == u <;> simp [hA, hB]
  · simp only
    induction st.lines with
    | nil => rfl
    | cons l tl ih =>
      rw [List.map_cons]
      cases hA : l.receipt_no == no with
      | true =>
        cases hB : l.upc == u with
        | true =>
          rw [if_pos (show (true && true) = true from rfl),
            List.filter_cons_of_pos (by exact hA), List.filter_cons_of_pos (by exact hA),
            List.map_cons, if_pos hB, ih]
        | false =>
          rw [if_neg (show ¬((true && false) = true) by simp),
            List.filter_cons_of_pos (by exact hA), List.filter_cons_of_pos (by exact hA),
            List.map_cons, if_neg (by simp [hB]), ih]
      | false =>
        rw [if_neg (show ¬((false && (l.upc == u)) = true) by simp),
          List.filter_cons_of_neg (by simp [hA]), List.filter_cons_of_neg (by simp [hA]), ih]

/-! ## Checkout normal forms -/

theorem checkout_nil (s : AppState) (cash : ℚ) :
    checkout s [] cash = (.emptySale, s) := rfl

theorem checkout_lt (s : AppState) (ls : List SaleLine) (cash : ℚ)
    (hne : ls ≠ []) (h : cash < calc_total ls) :
    checkout s ls cash = (.insufficientTender, s) := by
  unfold checkout
  rw [if_neg (by simp [List.isEmpty_iff, hne]), if_pos h]

theorem checkout_le (s : AppState) (ls : List SaleLine) (cash : ℚ)
    (hne : ls ≠ []) (h : calc_total ls ≤ cash) :
    checkout s ls cash =
      (.committed (s.store.seq + 1) (cash - calc_total ls),
       ⟨applyAll s.inventory ls (fun l => -l.qty), (s.store.create_receipt ls).2⟩) := by
  unfold checkout
  rw [if_neg (by simp [List.isEmpty_iff, hne]), if_neg (not_lt.mpr h)]
  rfl

/-! ## Return normal forms -/

theorem canceledOf_of_get_receipt (st : Store) (no : Nat) (b : Bool) (L : List SaleLine)
    (h : st.get_receipt no = some (b, L)) : st.canceledOf no = some b := by
  unfold Store.get_receipt at h
  cases hc : st.canceledOf no with
  | none => rw [hc] at h; cases h
  | some b' =>
    rw [hc] at h
    simp only [Option.some.injEq, Prod.mk.injEq] at h
    rw [h.1]

theorem linesOf_of_get_receipt (st : Store) (no : Nat) (b : Bool) (L : List SaleLine)
    (h : st.get_receipt no = some (b, L)) :
    (st.linesOf no).map ReceiptLine.toSaleLine = L := by
  unfold Store.get_receipt at h
  cases hc : st.canceledOf no with
  | none => rw [hc] at h; cases h
  | some b' =>
    rw [hc] at h
    simp only [Option.some.injEq, Prod.mk.injEq] at h
    exact h.2

/-- An open (non-canceled) receipt: choice 1 of `process_return` commits,
restoring inventory per line and setting the canceled flag. -/
theorem returnAll_open (s : AppState) (no : Nat) (L : List SaleLine)
    (h : s.store.get_receipt no = some (false, L)) :
    returnAll s no = (RetOutcome.committed,
      ⟨applyAll s.inventory L (fun l => l.qty), s.store.set_canceled no⟩) := by
  unfold returnAll
  rw [h]
  rfl

/-- A canceled receipt: choice 1 of `process_return` is refused and the
state is untouched. -/
theorem returnAll_canceled (s : AppState) (no : Nat) (L : List SaleLine)
    (h : s.store.get_receipt no = some (true, L)) :
    returnAll s no = (RetOutcome.alreadyCanceled, s) := by
  unfold returnAll
  rw [h]
  rfl

/-- Normal form of choice 2 of `process_return` on an open receipt with a
valid line index: the quantity guard decides between rejection and the
increment/update pair. -/
theorem returnPartial_open (s : AppState) (no : Nat) (idx : Nat) (r : Int)
    (L : List SaleLine) (line : SaleLine)
    (h : s.store.get_receipt no = some (false, L))
    (hidx : L[idx]? = some line) :
    returnPartial s no idx r =
      (if r ≤ 0 || line.qty < r then (RetOutcome.invalidQty, s)
       else (RetOutcome.committed,
         ⟨updOnHand s.inventory line.upc r,
          s.store.update_line_qty no line.upc (line.qty - r)⟩)) := by
  unfold returnPartial
  rw [h]
  simp only
  rw [hidx]
  rfl

/-- The loop `for k in [0..n): returnAll` — what repeated full returns
of one receipt do to the app state. -/
def repeatReturnAll (no : Nat) : Nat → AppState → AppState
  | 0, s => s
  | k + 1, s => (returnAll (repeatReturnAll no k s) no).2

/-! ## Claim theorems -/

/-- C6: for every non-empty list of sale lines, checkout computes the
total as `Σ unit_price * qty`, rejects with `InsufficientTender` exactly
when `tendered_cash < total`, and on acceptance returns change
`tendered_cash - total`. -/
theorem checkout_tender_check (s : AppState) (ls : List SaleLine) (cash : ℚ)
    (hne : ls ≠ []) :
    ((checkout s ls cash).1 = SaleOutcome.insufficientTender ↔
        cash < (ls.map (fun l => l.unit_price * (l.qty : ℚ))).sum) ∧
    ((ls.map (fun l => l.unit_price * (l.qty : ℚ))).sum ≤ cash →
        (checkout s ls cash).1 =
          SaleOutcome.committed (s.store.seq + 1)
            (cash - (ls.map (fun l => l.unit_price * (l.qty : ℚ))).sum)) := by
  have hct : (ls.map (fun l => l.unit_price * (l.qty : ℚ))).sum = calc_total ls := rfl
  rw [hct]
  refine ⟨⟨fun hout => ?_, fun hlt => ?_⟩, fun hle => ?_⟩
  · by_cases hlt : cash < calc_total ls
    · exact hlt
    · rw [checkout_le s ls cash hne (not_lt.mp hlt)] at hout
      simp at hout
  · rw [checkout_lt s ls cash hne hlt]
  · rw [checkout_le s ls cash hne hle]

/-- Witness for C6: item at $10, one unit; tendering $9.99 is refused. -/
theorem checkout_tender_check_witness :
    (([⟨"A", "apple", 10, 1⟩] : List SaleLine) ≠ []) ∧
    (((checkout ⟨[⟨"A", "apple", 5, 0, 0, 10, 10⟩], Store.init⟩
          [⟨"A", "apple", 10, 1⟩] (999/100)).1 = SaleOutcome.insufficientTender ↔
        (999/100 : ℚ) <
          (([⟨"A", "apple", 10, 1⟩] : List SaleLine).map
            (fun l => l.unit_price * (l.qty : ℚ))).sum) ∧
      ((([⟨"A", "apple", 10, 1⟩] : List SaleLine).map
            (fun l => l.unit_price * (l.qty : ℚ))).sum ≤ 999/100 →
        (checkout ⟨[⟨"A", "apple", 5, 0, 0, 10, 10⟩], Store.init⟩
            [⟨"A", "apple", 10, 1⟩] (999/100)).1 =
          SaleOutcome.committed ((⟨[⟨"A", "apple", 5, 0, 0, 10, 10⟩], Store.init⟩ :
              AppState).store.seq + 1)
            (999/100 -
              (([⟨"A", "apple", 10, 1⟩] : List SaleLine).map
                (fun l => l.unit_price * (l.qty : ℚ))).sum))) :=
  ⟨List.cons_ne_nil _ _,
   checkout_tender_check ⟨[⟨"A", "apple", 5, 0, 0, 10, 10⟩], Store.init⟩
     [⟨"A", "apple", 10, 1⟩] (999/100) (List.cons_ne_nil _ _)⟩

/-- C2 counterexample: the code performs no stock-sufficiency check.
Selling 2 units of an item with `on_hand = 1` (price $1, tendered $2)
commits and leaves `on_hand = -1`, so the claimed rejection of a sale
that would drive `on_hand` below zero does not happen. -/
theorem sale_oversell_negative_on_hand :
    (checkout ⟨[⟨"A", "apple", 10, 2, 5, 1, 1⟩], Store.init⟩
        [⟨"A", "apple", 1, 2⟩] 2).1 = SaleOutcome.committed 1 0 ∧
    onHand? (checkout ⟨[⟨"A", "apple", 10, 2, 5, 1, 1⟩], Store.init⟩
        [⟨"A", "apple", 1, 2⟩] 2).2.inventory "A" = some (-1) := by
  rw [checkout_le _ _ _ (List.cons_ne_nil _ _) (by norm_num [calc_total])]
  constructor
  · show SaleOutcome.committed (0 + 1) (2 - calc_total _) = SaleOutcome.committed 1 0
    norm_num [calc_total]
  · decide

/-- C2 amended: the code rejects a checkout only for an empty sale or
insufficient tender; a committed sale decrements each item's `on_hand`
unconditionally (no stock check), so `on_hand` may become negative —
the permissive behavior §4.3 of the spec flags as an open question. -/
theorem checkout_decrements_unconditionally (s : AppState) (ls : List SaleLine)
    (cash : ℚ) (hne : ls ≠ []) (hcash : calc_total ls ≤ cash) :
    (checkout s ls cash).1 =
      SaleOutcome.committed (s.store.seq + 1) (cash - calc_total ls) ∧
    ∀ u, onHand? (checkout s ls cash).2.inventory u =
      (onHand? s.inventory u).map (fun x => x - saleQty ls u) := by
  rw [checkout_le s ls cash hne hcash]
  exact ⟨rfl, fun u => onHand?_sale_decrement s.inventory ls u⟩

/-- Witness for the amended C2 at the oversell input. -/
theorem checkout_decrements_unconditionally_witness :
    (([⟨"A", "apple", 1, 2⟩] : List SaleLine) ≠ []) ∧
    calc_total [⟨"A", "apple", 1, 2⟩] ≤ 2 ∧
    ((checkout ⟨[⟨"A", "apple", 10, 2, 5, 1, 1⟩], Store.init⟩
          [⟨"A", "apple", 1, 2⟩] 2).1 =
        SaleOutcome.committed ((⟨[⟨"A", "apple", 10, 2, 5, 1, 1⟩], Store.init⟩ :
            AppState).store.seq + 1)
          (2 - calc_total [⟨"A", "apple", 1, 2⟩]) ∧
      ∀ u, onHand? (checkout ⟨[⟨"A", "apple", 10, 2, 5, 1, 1⟩], Store.init⟩
            [⟨"A", "apple", 1, 2⟩] 2).2.inventory u =
        (onHand? [⟨"A", "apple", 10, 2, 5, 1, 1⟩] u).map
          (fun x => x - saleQty [⟨"A", "apple", 1, 2⟩] u)) :=
  ⟨List.cons_ne_nil _ _, by norm_num [calc_total],
   checkout_decrements_unconditionally ⟨[⟨"A", "apple", 10, 2, 5, 1, 1⟩], Store.init⟩
     [⟨"A", "apple", 1, 2⟩] 2 (List.cons_ne_nil _ _) (by norm_num [calc_total])⟩

/-- C1: a committed checkout decrements each item's `on_hand` by the
summed quantity of its sale lines (each line exactly once), stores a
receipt holding exactly the given lines, and the total quantity
decremented equals the total quantity on the stored receipt's lines. -/
theorem commitSale_conservation (s : AppState) (ls : List SaleLine) (cash : ℚ)
    (no : Nat) (ch : ℚ) (s' : AppState)
    (hwf : s.store.wf)
    (hex : ∀ l ∈ ls, (findItem s.inventory l.upc).isSome = true)
    (hc : checkout s ls cash = (SaleOutcome.committed no ch, s')) :
    (∀ u, onHand? s'.inventory u =
        (onHand? s.inventory u).map (fun x => x - saleQty ls u)) ∧
    s'.store.get_receipt no = some (false, ls) ∧
    (ls.map (fun l => l.qty)).sum =
      (((s'.store.linesOf no).map ReceiptLine.toSaleLine).map (fun l => l.qty)).sum := by
  have hne : ls ≠ [] := by
    intro h
    subst h
    rw [checkout_nil] at hc
    simp [Prod.ext_iff] at hc
  have hle : calc_total ls ≤ cash := by
    by_contra hlt
    rw [checkout_lt s ls cash hne (not_le.mp hlt)] at hc
    simp [Prod.ext_iff] at hc
  rw [checkout_le s ls cash hne hle] at hc
  injection hc with h1 h2
  injection h1 with hno hch
  subst hno
  subst h2
  refine ⟨fun u => onHand?_sale_decrement s.inventory ls u, ?_, ?_⟩
  · exact Store.get_receipt_create_self s.store ls hwf
  · have hl0 := Store.linesOf_create_self s.store ls hwf
    have hlines : ((s.store.create_receipt ls).2.linesOf (s.store.seq + 1)).map
        ReceiptLine.toSaleLine = ls := by
      rw [show (s.store.create_receipt ls).2.linesOf (s.store.seq + 1) =
          ls.map (SaleLine.toRow (s.store.seq + 1)) from hl0, List.map_map]
      have hcomp : (ReceiptLine.toSaleLine ∘ SaleLine.toRow (s.store.seq + 1)) = id :=
        funext fun l => rfl
      rw [hcomp, List.map_id]
    rw [hlines]

/-- Witness for C1 at a concrete committed sale. -/
theorem commitSale_conservation_witness :
    Store.init.wf ∧
    (∀ l ∈ ([⟨"A", "apple", 2, 3⟩] : List SaleLine),
        (findItem [⟨"A", "apple", 10, 2, 5, 10, 2⟩] l.upc).isSome = true) ∧
    checkout ⟨[⟨"A", "apple", 10, 2, 5, 10, 2⟩], Store.init⟩ [⟨"A", "apple", 2, 3⟩] 10 =
      (SaleOutcome.committed 1 4,
       ⟨[⟨"A", "apple", 10, 2, 5, 7, 2⟩],
        ⟨1, [(1, false)], [⟨1, "A", "apple", 2, 3⟩]⟩⟩) ∧
    ((∀ u, onHand? ([⟨"A", "apple", 10, 2, 5, 7, 2⟩] : List Item) u =
        (onHand? [⟨"A", "apple", 10, 2, 5, 10, 2⟩] u).map
          (fun x => x - saleQty [⟨"A", "apple", 2, 3⟩] u)) ∧
      (⟨1, [(1, false)], [⟨1, "A", "apple", 2, 3⟩]⟩ : Store).get_receipt 1 =
        some (false, [⟨"A", "apple", 2, 3⟩]) ∧
      (([⟨"A", "apple", 2, 3⟩] : List SaleLine).map (fun l => l.qty)).sum =
        ((((⟨1, [(1, false)], [⟨1, "A", "apple", 2, 3⟩]⟩ : Store).linesOf 1).map
          ReceiptLine.toSaleLine).map (fun l => l.qty)).sum) :=
  ⟨Store.wf_init, by decide,
   by norm_num [checkout, calc_total, applyAll, updOnHand, Item.update_on_hand,
     Store.create_receipt, Store.init, SaleLine.toRow],
   commitSale_conservation ⟨[⟨"A", "apple", 10, 2, 5, 10, 2⟩], Store.init⟩
     [⟨"A", "apple", 2, 3⟩] 10 1 4
     ⟨[⟨"A", "apple", 10, 2, 5, 7, 2⟩],
      ⟨1, [(1, false)], [⟨1, "A", "apple", 2, 3⟩]⟩⟩
     Store.wf_init (by decide)
     (by norm_num [checkout, calc_total, applyAll, updOnHand, Item.update_on_hand,
       Store.create_receipt, Store.init, SaleLine.toRow])⟩

/-- C7: checkout's commit is all-or-nothing in the embedded semantics:
either the outcome is committed and the inventory decrement for every
line happened together with the receipt creation, or the checkout was
rejected (empty sale / insufficient tender) and both the inventory and
the store are exactly as before. -/
theorem checkout_atomic (s : AppState) (ls : List SaleLine) (cash : ℚ)
    (hwf : s.store.wf)
    (hex : ∀ l ∈ ls, (findItem s.inventory l.upc).isSome = true) :
    ((checkout s ls cash).2 = s ∧
        ((checkout s ls cash).1 = SaleOutcome.emptySale ∨
         (checkout s ls cash).1 = SaleOutcome.insufficientTender)) ∨
    (∃ no ch, (checkout s ls cash).1 = SaleOutcome.committed no ch ∧
        (∀ u, onHand? (checkout s ls cash).2.inventory u =
            (onHand? s.inventory u).map (fun x => x - saleQty ls u)) ∧
        (checkout s ls cash).2.store.get_receipt no = some (false, ls)) := by
  by_cases hne : ls = []
  · subst hne
    left
    rw [checkout_nil]
    exact ⟨rfl, Or.inl rfl⟩
  · by_cases hlt : cash < calc_total ls
    · left
      rw [checkout_lt s ls cash hne hlt]
      exact ⟨rfl, Or.inr rfl⟩
    · right
      refine ⟨s.store.seq + 1, cash - calc_total ls, ?_, ?_, ?_⟩
      · rw [checkout_le s ls cash hne (not_lt.mp hlt)]
      · rw [checkout_le s ls cash hne (not_lt.mp hlt)]
        exact fun u => onHand?_sale_decrement s.inventory ls u
      · rw [checkout_le s ls cash hne (not_lt.mp hlt)]
        exact Store.get_receipt_create_self s.store ls hwf

/-- Witness for C7 at a concrete state. -/
theorem checkout_atomic_witness :
    Store.init.wf ∧
    (∀ l ∈ ([⟨"A", "apple", 2, 3⟩] : List SaleLine),
        (findItem [⟨"A", "apple", 10, 2, 5, 10, 2⟩] l.upc).isSome = true) ∧
    (((checkout ⟨[⟨"A", "apple", 10, 2, 5, 10, 2⟩], Store.init⟩
          [⟨"A", "apple", 2, 3⟩] 10).2 = ⟨[⟨"A", "apple", 10, 2, 5, 10, 2⟩], Store.init⟩ ∧
        ((checkout ⟨[⟨"A", "apple", 10, 2, 5, 10, 2⟩], Store.init⟩
            [⟨"A", "apple", 2, 3⟩] 10).1 = SaleOutcome.emptySale ∨
         (checkout ⟨[⟨"A", "apple", 10, 2, 5, 10, 2⟩], Store.init⟩
            [⟨"A", "apple", 2, 3⟩] 10).1 = SaleOutcome.insufficientTender)) ∨
      (∃ no ch, (checkout ⟨[⟨"A", "apple", 10, 2, 5, 10, 2⟩], Store.init⟩
            [⟨"A", "apple", 2, 3⟩] 10).1 = SaleOutcome.committed no ch ∧
        (∀ u, onHand? (checkout ⟨[⟨"A", "apple", 10, 2, 5, 10, 2⟩], Store.init⟩
              [⟨"A", "apple", 2, 3⟩] 10).2.inventory u =
            (onHand? [⟨"A", "apple", 10, 2, 5, 10, 2⟩] u).map
              (fun x => x - saleQty [⟨"A", "apple", 2, 3⟩] u)) ∧
        (checkout ⟨[⟨"A", "apple", 10, 2, 5, 10, 2⟩], Store.init⟩
            [⟨"A", "apple", 2, 3⟩] 10).2.store.get_receipt no =
          some (false, [⟨"A", "apple", 2, 3⟩]))) :=
  ⟨Store.wf_init, by decide,
   checkout_atomic ⟨[⟨"A", "apple", 10, 2, 5, 10, 2⟩], Store.init⟩
     [⟨"A", "apple", 2, 3⟩] 10 Store.wf_init (by decide)⟩

/-- C4: on an existing non-canceled receipt, `returnAll` commits,
increments each item's `on_hand` by the receipt's summed line quantity
for it, and sets the canceled flag; a second `returnAll` is rejected
with `AlreadyCanceled` and changes nothing, so any number of repeats
leaves the state of the first (and only) restoration. -/
theorem returnAll_spec (s : AppState) (no : Nat) (L : List SaleLine)
    (h : s.store.get_receipt no = some (false, L)) :
    (returnAll s no).1 = RetOutcome.committed ∧
    (∀ u, onHand? (returnAll s no).2.inventory u =
        (onHand? s.inventory u).map (fun x => x + sumQty L u (fun l => l.qty))) ∧
    (returnAll s no).2.store.canceledOf no = some true ∧
    returnAll (returnAll s no).2 no = (RetOutcome.alreadyCanceled, (returnAll s no).2) ∧
    (∀ k, repeatReturnAll no k (returnAll s no).2 = (returnAll s no).2) := by
  have hra := returnAll_open s no L h
  have hc0 := canceledOf_of_get_receipt s.store no false L h
  have hcanc : (returnAll s no).2.store.canceledOf no = some true := by
    rw [hra]
    show (s.store.set_canceled no).canceledOf no = some true
    rw [Store.canceledOf_set_canceled_self, hc0]
    rfl
  have hgr2 : (returnAll s no).2.store.get_receipt no =
      some (true, ((returnAll s no).2.store.linesOf no).map ReceiptLine.toSaleLine) := by
    unfold Store.get_receipt
    rw [hcanc]
  have hrej := returnAll_canceled (returnAll s no).2 no _ hgr2
  refine ⟨by rw [hra], ?_, hcanc, hrej, ?_⟩
  · intro u
    rw [hra]
    exact onHand?_applyAll L s.inventory (fun l => l.qty) u
  · intro k
    induction k with
    | zero => rfl
    | succ k ih =>
      show (returnAll (repeatReturnAll no k (returnAll s no).2) no).2 = _
      rw [ih, hrej]

/-- Witness for C4 on a one-receipt store. -/
theorem returnAll_spec_witness :
    (⟨1, [(1, false)], [⟨1, "X", "x", 2, 3⟩]⟩ : Store).get_receipt 1 =
      some (false, [⟨"X", "x", 2, 3⟩]) ∧
    ((returnAll ⟨[⟨"X", "x", 9, 0, 0, 7, 2⟩],
          ⟨1, [(1, false)], [⟨1, "X", "x", 2, 3⟩]⟩⟩ 1).1 = RetOutcome.committed ∧
      (∀ u, onHand? (returnAll ⟨[⟨"X", "x", 9, 0, 0, 7, 2⟩],
            ⟨1, [(1, false)], [⟨1, "X", "x", 2, 3⟩]⟩⟩ 1).2.inventory u =
          (onHand? [⟨"X", "x", 9, 0, 0, 7, 2⟩] u).map
            (fun x => x + sumQty [⟨"X", "x", 2, 3⟩] u (fun l => l.qty))) ∧
      (returnAll ⟨[⟨"X", "x", 9, 0, 0, 7, 2⟩],
          ⟨1, [(1, false)], [⟨1, "X", "x", 2, 3⟩]⟩⟩ 1).2.store.canceledOf 1 = some true ∧
      returnAll (returnAll ⟨[⟨"X", "x", 9, 0, 0, 7, 2⟩],
          ⟨1, [(1, false)], [⟨1, "X", "x", 2, 3⟩]⟩⟩ 1).2 1 =
        (RetOutcome.alreadyCanceled, (returnAll ⟨[⟨"X", "x", 9, 0, 0, 7, 2⟩],
          ⟨1, [(1, false)], [⟨1, "X", "x", 2, 3⟩]⟩⟩ 1).2) ∧
      (∀ k, repeatReturnAll 1 k (returnAll ⟨[⟨"X", "x", 9, 0, 0, 7, 2⟩],
          ⟨1, [(1, false)], [⟨1, "X", "x", 2, 3⟩]⟩⟩ 1).2 =
        (returnAll ⟨[⟨"X", "x", 9, 0, 0, 7, 2⟩],
          ⟨1, [(1, false)], [⟨1, "X", "x", 2, 3⟩]⟩⟩ 1).2)) :=
  ⟨by decide,
   returnAll_spec ⟨[⟨"X", "x", 9, 0, 0, 7, 2⟩],
     ⟨1, [(1, false)], [⟨1, "X", "x", 2, 3⟩]⟩⟩ 1 [⟨"X", "x", 2, 3⟩] (by decide)⟩

/-- C5: on an existing non-canceled receipt and an existing line (of
positive quantity), `returnPartial` is rejected with `InvalidQty`
exactly when `return_qty ≤ 0` or `return_qty > line.qty`, and a
rejection changes nothing; on success it increments inventory by
`return_qty` for the line's item and rewrites the receipt's lines for
that item to quantity `line.qty - return_qty` (deleting them when the
new quantity is zero); at the boundary, `return_qty = line.qty`
succeeds and deletes the line while `return_qty = line.qty + 1` is
rejected. -/
theorem returnPartial_spec (s : AppState) (no idx : Nat) (r : Int)
    (L : List SaleLine) (line : SaleLine)
    (h : s.store.get_receipt no = some (false, L))
    (hidx : L[idx]? = some line) (hpos : 0 < line.qty) :
    ((returnPartial s no idx r).1 = RetOutcome.invalidQty ↔
        (r ≤ 0 ∨ line.qty < r)) ∧
    ((r ≤ 0 ∨ line.qty < r) → (returnPartial s no idx r).2 = s) ∧
    (0 < r → r ≤ line.qty →
      (returnPartial s no idx r).1 = RetOutcome.committed ∧
      (∀ u, onHand? (returnPartial s no idx r).2.inventory u =
          (if u = line.upc then (onHand? s.inventory u).map (fun x => x + r)
           else onHand? s.inventory u)) ∧
      (returnPartial s no idx r).2.store.linesOf no =
        (if line.qty - r ≤ 0 then
          (s.store.linesOf no).filter (fun l => !(l.upc == line.upc))
         else (s.store.linesOf no).map
           (fun l => if l.upc == line.upc then { l with qty := line.qty - r }
                     else l))) ∧
    ((returnPartial s no idx line.qty).1 = RetOutcome.committed ∧
      ∀ l' ∈ (returnPartial s no idx line.qty).2.store.linesOf no,
        ¬ l'.upc = line.upc) ∧
    (returnPartial s no idx (line.qty + 1)).1 = RetOutcome.invalidQty := by
  have hnf := fun q => returnPartial_open s no idx q L line h hidx
  have hsucc : ∀ q, 0 < q → q ≤ line.qty →
      returnPartial s no idx q = (RetOutcome.committed,
        ⟨updOnHand s.inventory line.upc q,
         s.store.update_line_qty no line.upc (line.qty - q)⟩) := by
    intro q h1 h2
    rw [hnf q,
      if_neg (by simp only [Bool.or_eq_true, decide_eq_true_eq]; omega)]
  refine ⟨⟨?_, ?_⟩, ?_, ?_, ⟨?_, ?_⟩, ?_⟩
  · intro hout
    by_contra hcon
    push_neg at hcon
    rw [hsucc r (by omega) hcon.2] at hout
    simp at hout
  · intro hb
    rw [hnf r, if_pos (by simp only [Bool.or_eq_true, decide_eq_true_eq]; exact hb)]
  · intro hb
    rw [hnf r, if_pos (by simp only [Bool.or_eq_true, decide_eq_true_eq]; exact hb)]
  · intro h1 h2
    rw [hsucc r h1 h2]
    refine ⟨rfl, ?_, ?_⟩
    · intro u
      by_cases hu : u = line.upc
      · subst hu
        rw [if_pos rfl]
        exact onHand?_updOnHand_self s.inventory line.upc r
      · rw [if_neg hu]
        exact onHand?_updOnHand_ne s.inventory line.upc u r hu
    · exact Store.linesOf_update_line_qty_self s.store no line.upc (line.qty - r)
  · rw [hsucc line.qty hpos le_rfl]
  · intro l' hl'
    have heq : (returnPartial s no idx line.qty).2.store.linesOf no =
        (s.store.linesOf no).filter (fun l => !(l.upc == line.upc)) := by
      rw [hsucc line.qty hpos le_rfl]
      show (s.store.update_line_qty no line.upc (line.qty - line.qty)).linesOf no = _
      rw [Store.linesOf_update_line_qty_self, if_pos (by omega)]
    rw [heq] at hl'
    have hpl := List.of_mem_filter hl'
    simpa using hpl
  · rw [hnf (line.qty + 1),
      if_pos (by simp only [Bool.or_eq_true, decide_eq_true_eq]; omega)]

/-- Witness for C5: the spec's partial-return example — 5 units of item
Y at $2 sold, 2 returned. -/
theorem returnPartial_spec_witness :
    (⟨1, [(1, false)], [⟨1, "Y", "y", 2, 5⟩]⟩ : Store).get_receipt 1 =
      some (false, [⟨"Y", "y", 2, 5⟩]) ∧
    (([⟨"Y", "y", 2, 5⟩] : List SaleLine)[0]? = some ⟨"Y", "y", 2, 5⟩) ∧
    ((0 : Int) < 5) ∧
    (((returnPartial ⟨[⟨"Y", "y", 20, 0, 0, 15, 2⟩],
          ⟨1, [(1, false)], [⟨1, "Y", "y", 2, 5⟩]⟩⟩ 1 0 2).1 = RetOutcome.invalidQty ↔
        ((2 : Int) ≤ 0 ∨ (5 : Int) < 2)) ∧
      (((2 : Int) ≤ 0 ∨ (5 : Int) < 2) →
        (returnPartial ⟨[⟨"Y", "y", 20, 0, 0, 15, 2⟩],
          ⟨1, [(1, false)], [⟨1, "Y", "y", 2, 5⟩]⟩⟩ 1 0 2).2 =
          ⟨[⟨"Y", "y", 20, 0, 0, 15, 2⟩], ⟨1, [(1, false)], [⟨1, "Y", "y", 2, 5⟩]⟩⟩) ∧
      ((0 : Int) < 2 → (2 : Int) ≤ 5 →
        (returnPartial ⟨[⟨"Y", "y", 20, 0, 0, 15, 2⟩],
            ⟨1, [(1, false)], [⟨1, "Y", "y", 2, 5⟩]⟩⟩ 1 0 2).1 = RetOutcome.committed ∧
        (∀ u, onHand? (returnPartial ⟨[⟨"Y", "y", 20, 0, 0, 15, 2⟩],
              ⟨1, [(1, false)], [⟨1, "Y", "y", 2, 5⟩]⟩⟩ 1 0 2).2.inventory u =
            (if u = "Y" then
              (onHand? [⟨"Y", "y", 20, 0, 0, 15, 2⟩] u).map (fun x => x + 2)
             else onHand? [⟨"Y", "y", 20, 0, 0, 15, 2⟩] u)) ∧
        (returnPartial ⟨[⟨"Y", "y", 20, 0, 0, 15, 2⟩],
            ⟨1, [(1, false)], [⟨1, "Y", "y", 2, 5⟩]⟩⟩ 1 0 2).2.store.linesOf 1 =
          (if (5 - 2 : Int) ≤ 0 then
            ((⟨1, [(1, false)], [⟨1, "Y", "y", 2, 5⟩]⟩ : Store).linesOf 1).filter
              (fun l => !(l.upc == "Y"))
           else ((⟨1, [(1, false)], [⟨1, "Y", "y", 2, 5⟩]⟩ : Store).linesOf 1).map
             (fun l => if l.upc == "Y" then { l with qty := (5 - 2 : Int) } else l))) ∧
      ((returnPartial ⟨[⟨"Y", "y", 20, 0, 0, 15, 2⟩],
            ⟨1, [(1, false)], [⟨1, "Y", "y", 2, 5⟩]⟩⟩ 1 0 5).1 = RetOutcome.committed ∧
        ∀ l' ∈ (returnPartial ⟨[⟨"Y", "y", 20, 0, 0, 15, 2⟩],
            ⟨1, [(1, false)], [⟨1, "Y", "y", 2, 5⟩]⟩⟩ 1 0 5).2.store.linesOf 1,
          ¬ l'.upc = "Y") ∧
      (returnPartial ⟨[⟨"Y", "y", 20, 0, 0, 15, 2⟩],
          ⟨1, [(1, false)], [⟨1, "Y", "y", 2, 5⟩]⟩⟩ 1 0 6).1 = RetOutcome.invalidQty) :=
  ⟨by decide, by decide, by decide,
   returnPartial_spec ⟨[⟨"Y", "y", 20, 0, 0, 15, 2⟩],
       ⟨1, [(1, false)], [⟨1, "Y", "y", 2, 5⟩]⟩⟩ 1 0 2
     [⟨"Y", "y", 2, 5⟩] ⟨"Y", "y", 2, 5⟩ (by decide) (by decide) (by decide)⟩

/-- C10: `update_line_qty` matches rows by `(receipt_no, upc)`, so a
partial return of one selected line rewrites (here: to `line.qty - r`)
the quantity of every line of the receipt sharing that UPC — in
particular the line at any other position `k` with the same UPC, not
only the selected index. -/
theorem updateLineQty_aliasing (s : AppState) (no idx k : Nat) (r : Int)
    (L : List SaleLine) (line : SaleLine) (other : ReceiptLine)
    (h : s.store.get_receipt no = some (false, L))
    (hidx : L[idx]? = some line)
    (hk : (s.store.linesOf no)[k]? = some other)
    (hupc : other.upc = line.upc)
    (hr1 : 0 < r) (hr2 : r < line.qty) :
    (returnPartial s no idx r).1 = RetOutcome.committed ∧
    ((returnPartial s no idx r).2.store.linesOf no)[k]? =
      some { other with qty := line.qty - r } := by
  have hnf := returnPartial_open s no idx r L line h hidx
  have hcond : ¬((r ≤ 0 || line.qty < r) = true) := by
    simp only [Bool.or_eq_true, decide_eq_true_eq]
    omega
  rw [hnf, if_neg hcond]
  refine ⟨rfl, ?_⟩
  show ((s.store.update_line_qty no line.upc (line.qty - r)).linesOf no)[k]? = _
  rw [Store.linesOf_update_line_qty_self, if_neg (by omega), List.getElem?_map, hk]
  show some (if other.upc == line.upc then { other with qty := line.qty - r }
      else other) = _
  rw [if_pos (by simp [hupc])]

/-- Witness for C10: a receipt holding two lines of the same UPC; a
partial return selecting line 0 also rewrites line 1. -/
theorem updateLineQty_aliasing_witness :
    (⟨1, [(1, false)], [⟨1, "A", "a", 1, 5⟩, ⟨1, "A", "a", 1, 4⟩]⟩ : Store).get_receipt 1 =
      some (false, [⟨"A", "a", 1, 5⟩, ⟨"A", "a", 1, 4⟩]) ∧
    (([⟨"A", "a", 1, 5⟩, ⟨"A", "a", 1, 4⟩] : List SaleLine)[0]? =
      some ⟨"A", "a", 1, 5⟩) ∧
    ((⟨1, [(1, false)], [⟨1, "A", "a", 1, 5⟩, ⟨1, "A", "a", 1, 4⟩]⟩ : Store).linesOf 1)[1]? =
      some ⟨1, "A", "a", 1, 4⟩ ∧
    ((returnPartial ⟨[⟨"A", "a", 9, 0, 0, 0, 1⟩],
          ⟨1, [(1, false)], [⟨1, "A", "a", 1, 5⟩, ⟨1, "A", "a", 1, 4⟩]⟩⟩ 1 0 2).1 =
        RetOutcome.committed ∧
      ((returnPartial ⟨[⟨"A", "a", 9, 0, 0, 0, 1⟩],
          ⟨1, [(1, false)], [⟨1, "A", "a", 1, 5⟩, ⟨1, "A", "a", 1, 4⟩]⟩⟩ 1 0 2).2.store.linesOf
          1)[1]? = some ⟨1, "A", "a", 1, 5 - 2⟩) :=
  ⟨by decide, by decide, by decide,
   updateLineQty_aliasing ⟨[⟨"A", "a", 9, 0, 0, 0, 1⟩],
       ⟨1, [(1, false)], [⟨1, "A", "a", 1, 5⟩, ⟨1, "A", "a", 1, 4⟩]⟩⟩ 1 0 1 2
     [⟨"A", "a", 1, 5⟩, ⟨"A", "a", 1, 4⟩] ⟨"A", "a", 1, 5⟩ ⟨1, "A", "a", 1, 4⟩
     (by decide) (by decide) (by decide) (by decide) (by decide) (by decide)⟩

/-- C8: a committed sale followed by `returnAll` on the resulting
receipt is a round trip on inventory — every item's `on_hand` returns
to its value before the sale, and the receipt ends canceled. -/
theorem sale_roundtrip_returnAll (s : AppState) (ls : List SaleLine) (cash : ℚ)
    (no : Nat) (ch : ℚ) (s₁ : AppState)
    (hwf : s.store.wf)
    (hex : ∀ l ∈ ls, (findItem s.inventory l.upc).isSome = true)
    (hc : checkout s ls cash = (SaleOutcome.committed no ch, s₁)) :
    (returnAll s₁ no).1 = RetOutcome.committed ∧
    (∀ u, onHand? (returnAll s₁ no).2.inventory u = onHand? s.inventory u) ∧
    (returnAll s₁ no).2.store.canceledOf no = some true := by
  have hne : ls ≠ [] := by
    intro hE
    subst hE
    rw [checkout_nil] at hc
    simp [Prod.ext_iff] at hc
  have hle : calc_total ls ≤ cash := by
    by_contra hlt
    rw [checkout_lt s ls cash hne (not_le.mp hlt)] at hc
    simp [Prod.ext_iff] at hc
  rw [checkout_le s ls cash hne hle] at hc
  injection hc with h1 h2
  injection h1 with hno hch
  subst hno
  subst h2
  have hgr : ((s.store.create_receipt ls).2).get_receipt (s.store.seq + 1) =
      some (false, ls) := Store.get_receipt_create_self s.store ls hwf
  have hra := returnAll_open
    ⟨applyAll s.inventory ls (fun l => -l.qty), (s.store.create_receipt ls).2⟩
    (s.store.seq + 1) ls hgr
  refine ⟨by rw [hra], ?_, ?_⟩
  · intro u
    rw [hra]
    show onHand? (applyAll (applyAll s.inventory ls (fun l => -l.qty)) ls
        (fun l => l.qty)) u = _
    rw [onHand?_applyAll, onHand?_sale_decrement]
    cases onHand? s.inventory u with
    | none => rfl
    | some x =>
      show some (x - saleQty ls u + sumQty ls u (fun l => l.qty)) = some x
      have hs : sumQty ls u (fun l => l.qty) = saleQty ls u := rfl
      rw [hs, sub_add_cancel]
  · rw [hra]
    show ((s.store.create_receipt ls).2.set_canceled (s.store.seq + 1)).canceledOf
      (s.store.seq + 1) = some true
    rw [Store.canceledOf_set_canceled_self,
      show (s.store.create_receipt ls).2.canceledOf (s.store.seq + 1) = some false from
        Store.canceledOf_create_self s.store ls hwf]
    rfl

/-- Witness for C8: the spec's example — selling 3 units takes
`on_hand` from 10 to 7, and the full return takes it back to 10. -/
theorem sale_roundtrip_returnAll_witness :
    Store.init.wf ∧
    (∀ l ∈ ([⟨"A", "apple", 2, 3⟩] : List SaleLine),
        (findItem [⟨"A", "apple", 10, 2, 5, 10, 2⟩] l.upc).isSome = true) ∧
    checkout ⟨[⟨"A", "apple", 10, 2, 5, 10, 2⟩], Store.init⟩ [⟨"A", "apple", 2, 3⟩] 10 =
      (SaleOutcome.committed 1 4,
       ⟨[⟨"A", "apple", 10, 2, 5, 7, 2⟩],
        ⟨1, [(1, false)], [⟨1, "A", "apple", 2, 3⟩]⟩⟩) ∧
    ((returnAll ⟨[⟨"A", "apple", 10, 2, 5, 7, 2⟩],
        ⟨1, [(1, false)], [⟨1, "A", "apple", 2, 3⟩]⟩⟩ 1).1 = RetOutcome.committed ∧
      (∀ u, onHand? (returnAll ⟨[⟨"A", "apple", 10, 2, 5, 7, 2⟩],
          ⟨1, [(1, false)], [⟨1, "A", "apple", 2, 3⟩]⟩⟩ 1).2.inventory u =
        onHand? [⟨"A", "apple", 10, 2, 5, 10, 2⟩] u) ∧
      (returnAll ⟨[⟨"A", "apple", 10, 2, 5, 7, 2⟩],
          ⟨1, [(1, false)], [⟨1, "A", "apple", 2, 3⟩]⟩⟩ 1).2.store.canceledOf 1 =
        some true) :=
  ⟨Store.wf_init, by decide,
   by norm_num [checkout, calc_total, applyAll, updOnHand, Item.update_on_hand,
     Store.create_receipt, Store.init, SaleLine.toRow],
   sale_roundtrip_returnAll ⟨[⟨"A", "apple", 10, 2, 5, 10, 2⟩], Store.init⟩
     [⟨"A", "apple", 2, 3⟩] 10 1 4
     ⟨[⟨"A", "apple", 10, 2, 5, 7, 2⟩],
      ⟨1, [(1, false)], [⟨1, "A", "apple", 2, 3⟩]⟩⟩
     Store.wf_init (by decide)
     (by norm_num [checkout, calc_total, applyAll, updOnHand, Item.update_on_hand,
       Store.create_receipt, Store.init, SaleLine.toRow])⟩

/-! ## Store operation traces (for the receipt-number contract) -/

/-- The mutating operations `SalesStore` exposes, as trace steps. -/
inductive StoreOp where
  | create (ls : List SaleLine)
  | cancel (no : Nat)
  | updateQty (no : Nat) (u : String) (q : Int)

def Store.applyOp (st : Store) : StoreOp → Store
  | .create ls => (st.create_receipt ls).2
  | .cancel no => st.set_canceled no
  | .updateQty no u q => st.update_line_qty no u q

/-- The store reached from a fresh database by a sequence of calls. -/
def runStore (ops : List StoreOp) : Store :=
  ops.foldl Store.applyOp Store.init

theorem receipts_fst_set_canceled (st : Store) (no : Nat) :
    (st.set_canceled no).receipts.map (fun r => r.1) =
      st.receipts.map (fun r => r.1) := by
  unfold Store.set_canceled
  simp only
  rw [List.map_map]
  refine List.map_congr_left fun a _ => ?_
  by_cases hb : a.1 = no <;> simp [hb]

theorem receipts_update_line_qty (st : Store) (no : Nat) (u : String) (q : Int) :
    (st.update_line_qty no u q).receipts = st.receipts := by
  unfold Store.update_line_qty
  split <;> rfl

theorem pairwise_receipts_create (st : Store) (ls : List SaleLine) (h : st.wf)
    (hp : List.Pairwise (· < ·) (st.receipts.map (fun r => r.1))) :
    List.Pairwise (· < ·)
      ((st.create_receipt ls).2.receipts.map (fun r => r.1)) := by
  unfold Store.create_receipt
  simp only [List.map_append]
  rw [List.pairwise_append]
  refine ⟨hp, by simp, ?_⟩
  intro a ha b hb
  simp only [List.map_cons, List.map_nil, List.mem_singleton] at hb
  subst hb
  simp only [List.mem_map] at ha
  obtain ⟨r, hr, rfl⟩ := ha
  have := h.1 r hr
  omega

theorem runStore_wf_sorted (ops : List StoreOp) :
    (runStore ops).wf ∧
    List.Pairwise (· < ·) ((runStore ops).receipts.map (fun r => r.1)) := by
  suffices hgen : ∀ st : Store, st.wf →
      List.Pairwise (· < ·) (st.receipts.map (fun r => r.1)) →
      (ops.foldl Store.applyOp st).wf ∧
        List.Pairwise (· < ·)
          ((ops.foldl Store.applyOp st).receipts.map (fun r => r.1)) by
    exact hgen Store.init Store.wf_init (by simp [Store.init])
  induction ops with
  | nil => exact fun st h1 h2 => ⟨h1, h2⟩
  | cons op tl ih =>
    intro st h1 h2
    refine ih (st.applyOp op) ?_ ?_
    · cases op with
      | create ls => exact Store.wf_create st ls h1
      | cancel no => exact Store.wf_set_canceled st no h1
      | updateQty no u q => exact Store.wf_update_line_qty st no u q h1
    · cases op with
      | create ls => exact pairwise_receipts_create st ls h1 h2
      | cancel no =>
        show List.Pairwise (· < ·) ((st.set_canceled no).receipts.map (fun r => r.1))
        rw [receipts_fst_set_canceled]
        exact h2
      | updateQty no u q =>
        show List.Pairwise (· < ·)
          ((st.update_line_qty no u q).receipts.map (fun r => r.1))
        rw [receipts_update_line_qty]
        exact h2

/-- C9: whatever sequence of store calls preceded it, `create_receipt`
allocates a number strictly greater than every receipt number present
in the store (hence fresh), and the stored receipt numbers — which
accumulate in allocation order over the store's lifetime — remain
strictly increasing, hence pairwise distinct. -/
theorem create_receipt_fresh_strict_mono (ops : List StoreOp) (ls : List SaleLine) :
    (∀ r ∈ (runStore ops).receipts, r.1 < ((runStore ops).create_receipt ls).1) ∧
    List.Pairwise (· < ·)
      (((runStore ops).create_receipt ls).2.receipts.map (fun r => r.1)) := by
  obtain ⟨hwf, hp⟩ := runStore_wf_sorted ops
  constructor
  · intro r hr
    have := hwf.1 r hr
    show r.1 < (runStore ops).seq + 1
    omega
  · exact pairwise_receipts_create (runStore ops) ls hwf hp

/-- Witness for C9 after a concrete trace. -/
theorem create_receipt_fresh_strict_mono_witness :
    (∀ r ∈ (runStore [StoreOp.create [⟨"A", "a", 1, 1⟩], StoreOp.cancel 1]).receipts,
        r.1 < ((runStore [StoreOp.create [⟨"A", "a", 1, 1⟩],
          StoreOp.cancel 1]).create_receipt [⟨"B", "b", 1, 2⟩]).1) ∧
    List.Pairwise (· < ·)
      (((runStore [StoreOp.create [⟨"A", "a", 1, 1⟩],
        StoreOp.cancel 1]).create_receipt [⟨"B", "b", 1, 2⟩]).2.receipts.map
          (fun r => r.1)) :=
  create_receipt_fresh_strict_mono
    [StoreOp.create [⟨"A", "a", 1, 1⟩], StoreOp.cancel 1] [⟨"B", "b", 1, 2⟩]

/-! ## Return traces and the per-line conservation invariant (C3) -/

/-- A canceled receipt: choice 2 of `process_return` is refused. -/
theorem returnPartial_canceled (s : AppState) (no idx : Nat) (r : Int)
    (L : List SaleLine) (h : s.store.get_receipt no = some (true, L)) :
    returnPartial s no idx r = (RetOutcome.alreadyCanceled, s) := by
  unfold returnPartial
  rw [h]
  rfl

/-- An out-of-range line selection: choice 2 of `process_return` is
refused with invalid input. -/
theorem returnPartial_noline (s : AppState) (no idx : Nat) (r : Int)
    (L : List SaleLine) (h : s.store.get_receipt no = some (false, L))
    (hidx : L[idx]? = none) :
    returnPartial s no idx r = (RetOutcome.invalidInput, s) := by
  unfold returnPartial
  rw [h]
  simp only
  rw [hidx]
  rfl

/-- Total quantity recorded for one UPC on a list of receipt rows. -/
def lineQtySum (ls : List ReceiptLine) (u : String) : Int :=
  ((ls.filter (fun l => l.upc == u)).map (fun l => l.qty)).sum

/-- Total quantity currently on receipt `no` for UPC `u`. -/
def Store.curQty (st : Store) (no : Nat) (u : String) : Int :=
  lineQtySum (st.linesOf no) u

/-- A return operation, as entered through the `process_return` menu. -/
inductive RetOp where
  | fullRet (no : Nat)
  | partRet (no : Nat) (idx : Nat) (r : Int)

/-- The receipt a return operation addresses. -/
def RetOp.target : RetOp → Nat
  | .fullRet no => no
  | .partRet no _ _ => no

/-- State transition of one `process_return` interaction (rejections
leave the state unchanged). -/
def applyRet (s : AppState) : RetOp → AppState
  | .fullRet no => (returnAll s no).2
  | .partRet no idx r => (returnPartial s no idx r).2

/-- A sequence of `process_return` interactions. -/
def applyRets (s : AppState) (ops : List RetOp) : AppState :=
  ops.foldl applyRet s

theorem lineQtySum_nonneg (ls : List ReceiptLine) (u : String)
    (h : ∀ l ∈ ls, 0 ≤ l.qty) : 0 ≤ lineQtySum ls u := by
  unfold lineQtySum
  apply List.sum_nonneg
  intro x hx
  simp only [List.mem_map] at hx
  obtain ⟨l, hl, rfl⟩ := hx
  exact h l (List.mem_of_mem_filter hl)

/-- With pairwise-distinct UPCs, the rows carrying a member row's UPC
are exactly that row. -/
theorem filter_upc_singleton (ls : List ReceiptLine) (row : ReceiptLine)
    (hnd : (ls.map (fun l => l.upc)).Nodup) (hmem : row ∈ ls) :
    ls.filter (fun l => l.upc == row.upc) = [row] := by
  induction ls with
  | nil => cases hmem
  | cons a tl ih =>
    rw [List.map_cons, List.nodup_cons] at hnd
    obtain ⟨hna, hndtl⟩ := hnd
    rcases List.mem_cons.mp hmem with rfl | hmem'
    · rw [@List.filter_cons_of_pos _ (fun l => l.upc == row.upc) row tl
        (beq_self_eq_true row.upc)]
      have hnil : tl.filter (fun l => l.upc == row.upc) = [] := by
        rw [List.filter_eq_nil_iff]
        intro l hl
        have hne : l.upc ≠ row.upc :=
          fun hc => hna (hc ▸ List.mem_map_of_mem (fun l => l.upc) hl)
        simp [hne]
      rw [hnil]
    · have hne : ¬((a.upc == row.upc) = true) := by
        simp only [beq_iff_eq]
        intro hc
        exact hna (hc ▸ List.mem_map_of_mem (fun l => l.upc) hmem')
      rw [@List.filter_cons_of_neg _ (fun l => l.upc == row.upc) a tl hne]
      exact ih hndtl hmem'

theorem lineQtySum_of_mem_nodup (ls : List ReceiptLine) (row : ReceiptLine)
    (hnd : (ls.map (fun l => l.upc)).Nodup) (hmem : row ∈ ls) :
    lineQtySum ls row.upc = row.qty := by
  unfold lineQtySum
  rw [filter_upc_singleton ls row hnd hmem]
  simp

theorem lineQtySum_filter_out (ls : List ReceiptLine) (u : String) :
    lineQtySum (ls.filter (fun l => !(l.upc == u))) u = 0 := by
  have hnil : (ls.filter (fun l => !(l.upc == u))).filter (fun l => l.upc == u) = [] := by
    rw [List.filter_eq_nil_iff]
    intro a ha
    have hpa := List.of_mem_filter ha
    simpa using hpa
  unfold lineQtySum
  rw [hnil]
  rfl

theorem lineQtySum_filter_out_ne (ls : List ReceiptLine) (u v : String)
    (hvu : v ≠ u) :
    lineQtySum (ls.filter (fun l => !(l.upc == u))) v = lineQtySum ls v := by
  unfold lineQtySum
  induction ls with
  | nil => rfl
  | cons a tl ih =>
    by_cases hau : a.upc = u
    · rw [List.filter_cons_of_neg (by simp [hau]),
        List.filter_cons_of_neg (by simp [hau]; exact fun hc => hvu hc.symm)]
      exact ih
    · rw [List.filter_cons_of_pos (by simp [hau])]
      by_cases hav : a.upc = v
      · rw [List.filter_cons_of_pos (by simp [hav]),
          List.filter_cons_of_pos (by simp [hav])]
        simp only [List.map_cons, List.sum_cons]
        exact congrArg (fun t => a.qty + t) ih
      · rw [List.filter_cons_of_neg (by simp [hav]),
          List.filter_cons_of_neg (by simp [hav])]
        exact ih

/-- `get_receipt`'s projection to sale lines commutes with filtering by
UPC (the projection keeps the UPC). -/
theorem filter_toSaleLine (ls : List ReceiptLine) (u : String) :
    (ls.map ReceiptLine.toSaleLine).filter (fun l => l.upc == u) =
      (ls.filter (fun l => l.upc == u)).map ReceiptLine.toSaleLine := by
  induction ls with
  | nil => rfl
  | cons a tl ih =>
    cases hb : a.upc == u with
    | true =>
      rw [List.map_cons,
        List.filter_cons_of_pos (by simpa [ReceiptLine.toSaleLine] using hb),
        List.filter_cons_of_pos (by exact hb), List.map_cons, ih]
    | false =>
      rw [List.map_cons,
        List.filter_cons_of_neg (by simp [ReceiptLine.toSaleLine, hb]),
        List.filter_cons_of_neg (by simp [hb]), ih]

theorem sumQty_toSaleLine (ls : List ReceiptLine) (u : String) :
    sumQty (ls.map ReceiptLine.toSaleLine) u (fun l => l.qty) = lineQtySum ls u := by
  unfold sumQty lineQtySum
  rw [filter_toSaleLine, List.map_map]
  rfl

/-- The quantity overwrite of `update_line_qty` commutes with filtering
by UPC (it keeps every row's UPC). -/
theorem filter_setqty (ls : List ReceiptLine) (u v : String) (q : Int) :
    (ls.map (fun l => if l.upc == u then { l with qty := q } else l)).filter
        (fun l => l.upc == v) =
      (ls.filter (fun l => l.upc == v)).map
        (fun l => if l.upc == u then { l with qty := q } else l) := by
  induction ls with
  | nil => rfl
  | cons a tl ih =>
    cases hb : a.upc == v with
    | true =>
      rw [List.map_cons,
        List.filter_cons_of_pos (by cases hau : a.upc == u <;> simp [hau, hb]),
        List.filter_cons_of_pos (by exact hb), List.map_cons, ih]
    | false =>
      rw [List.map_cons,
        List.filter_cons_of_neg (by cases hau : a.upc == u <;> simp [hau, hb]),
        List.filter_cons_of_neg (by simp [hb]), ih]

theorem lineQtySum_map_set_self (ls : List ReceiptLine) (row : ReceiptLine) (q : Int)
    (hnd : (ls.map (fun l => l.upc)).Nodup) (hmem : row ∈ ls) :
    lineQtySum (ls.map (fun l => if l.upc == row.upc then { l with qty := q } else l))
      row.upc = q := by
  unfold lineQtySum
  rw [filter_setqty, filter_upc_singleton ls row hnd hmem]
  simp

theorem lineQtySum_map_set_ne (ls : List ReceiptLine) (u v : String) (q : Int)
    (hvu : v ≠ u) :
    lineQtySum (ls.map (fun l => if l.upc == u then { l with qty := q } else l)) v =
      lineQtySum ls v := by
  unfold lineQtySum
  rw [filter_setqty, List.map_map]
  congr 1
  refine List.map_congr_left fun a ha => ?_
  have hav := List.of_mem_filter ha
  simp only [beq_iff_eq] at hav
  simp only [Function.comp_apply]
  split
  · next hcond =>
    exact absurd (show a.upc = u by simpa using hcond) (fun hc => hvu (hav ▸ hc))
  · rfl

theorem upcs_map_set (ls : List ReceiptLine) (u : String) (q : Int) :
    (ls.map (fun l => if l.upc == u then { l with qty := q } else l)).map
        (fun l => l.upc) = ls.map (fun l => l.upc) := by
  rw [List.map_map]
  refine List.map_congr_left fun a _ => ?_
  by_cases hb : a.upc = u <;> simp [hb]

/-- The inductive invariant behind C3, relative to the inventory `inv₀`
and the per-UPC quantities `orig` on receipt `no` at the start: the
receipt's line UPCs stay pairwise distinct, line quantities stay
nonnegative and bounded by `orig`, and — while the receipt is open —
the inventory restored per UPC equals `orig` minus the current line
quantity, becoming the full `orig` once the receipt is canceled. -/
def RetInv (inv₀ : List Item) (no : Nat) (orig : String → Int) (s : AppState) : Prop :=
  ((s.store.linesOf no).map (fun l => l.upc)).Nodup ∧
  (∀ l ∈ s.store.linesOf no, 0 ≤ l.qty) ∧
  (∀ u, s.store.curQty no u ≤ orig u) ∧
  ((s.store.canceledOf no = some false ∧
      ∀ u, onHand? s.inventory u =
        (onHand? inv₀ u).map (fun x => x + (orig u - s.store.curQty no u))) ∨
   (s.store.canceledOf no = some true ∧
      ∀ u, onHand? s.inventory u = (onHand? inv₀ u).map (fun x => x + orig u)))

theorem RetInv_step (inv₀ : List Item) (no : Nat) (orig : String → Int)
    (s : AppState) (op : RetOp) (hop : op.target = no)
    (hI : RetInv inv₀ no orig s) : RetInv inv₀ no orig (applyRet s op) := by
  obtain ⟨hnd, hq, hle, hbranch⟩ := hI
  cases op with
  | fullRet m =>
    have hm : m = no := hop
    subst hm
    rcases hbranch with ⟨hc, hinv⟩ | ⟨hc, hinv⟩
    · have hgr : s.store.get_receipt m =
          some (false, (s.store.linesOf m).map ReceiptLine.toSaleLine) := by
        unfold Store.get_receipt
        rw [hc]
      rw [show applyRet s (RetOp.fullRet m) = (returnAll s m).2 from rfl,
        returnAll_open s m _ hgr]
      refine ⟨hnd, hq, hle, Or.inr ⟨?_, ?_⟩⟩
      · show (s.store.set_canceled m).canceledOf m = some true
        rw [Store.canceledOf_set_canceled_self, hc]
        rfl
      · intro u
        show onHand? (applyAll s.inventory
            ((s.store.linesOf m).map ReceiptLine.toSaleLine) (fun l => l.qty)) u = _
        rw [onHand?_applyAll, hinv u, sumQty_toSaleLine]
        cases onHand? inv₀ u with
        | none => rfl
        | some x =>
          show some (x + (orig u - s.store.curQty m u) + s.store.curQty m u) =
            some (x + orig u)
          congr 1
          ring
    · have hgr : s.store.get_receipt m =
          some (true, (s.store.linesOf m).map ReceiptLine.toSaleLine) := by
        unfold Store.get_receipt
        rw [hc]
      rw [show applyRet s (RetOp.fullRet m) = (returnAll s m).2 from rfl,
        returnAll_canceled s m _ hgr]
      exact ⟨hnd, hq, hle, Or.inr ⟨hc, hinv⟩⟩
  | partRet m idx r =>
    have hm : m = no := hop
    subst hm
    rcases hbranch with ⟨hc, hinv⟩ | ⟨hc, hinv⟩
    · have hgr : s.store.get_receipt m =
          some (false, (s.store.linesOf m).map ReceiptLine.toSaleLine) := by
        unfold Store.get_receipt
        rw [hc]
      cases hidx : ((s.store.linesOf m).map ReceiptLine.toSaleLine)[idx]? with
      | none =>
        rw [show applyRet s (RetOp.partRet m idx r) =
            (returnPartial s m idx r).2 from rfl,
          returnPartial_noline s m idx r _ hgr hidx]
        exact ⟨hnd, hq, hle, Or.inl ⟨hc, hinv⟩⟩
      | some line =>
        have hrow : ∃ row, (s.store.linesOf m)[idx]? = some row ∧
            ReceiptLine.toSaleLine row = line := by
          rw [List.getElem?_map] at hidx
          cases hr0 : (s.store.linesOf m)[idx]? with
          | none => rw [hr0] at hidx; cases hidx
          | some row => rw [hr0] at hidx; exact ⟨row, rfl, by simpa using hidx⟩
        obtain ⟨row, hrowidx, hrowline⟩ := hrow
        have hmem : row ∈ s.store.linesOf m := List.getElem?_mem hrowidx
        have hupc : line.upc = row.upc := by rw [← hrowline]; rfl
        have hqty : line.qty = row.qty := by rw [← hrowline]; rfl
        have hcur : s.store.curQty m row.upc = row.qty :=
          lineQtySum_of_mem_nodup _ row hnd hmem
        have hnf := returnPartial_open s m idx r _ line hgr hidx
        by_cases hguard : r ≤ 0 ∨ line.qty < r
        · rw [show applyRet s (RetOp.partRet m idx r) =
              (returnPartial s m idx r).2 from rfl,
            hnf, if_pos (by simp only [Bool.or_eq_true, decide_eq_true_eq]; exact hguard)]
          exact ⟨hnd, hq, hle, Or.inl ⟨hc, hinv⟩⟩
        · push_neg at hguard
          obtain ⟨hr1, hr2⟩ := hguard
          have hr2' : r ≤ row.qty := by omega
          rw [show applyRet s (RetOp.partRet m idx r) =
              (returnPartial s m idx r).2 from rfl,
            hnf, if_neg (by simp only [Bool.or_eq_true, decide_eq_true_eq]; omega)]
          rw [hupc, hqty]
          have hLnew := Store.linesOf_update_line_qty_self s.store m row.upc (row.qty - r)
          by_cases hdel : row.qty - r ≤ 0
          · rw [if_pos hdel] at hLnew
            refine ⟨?_, ?_, ?_, Or.inl ⟨?_, ?_⟩⟩
            · show (((s.store.update_line_qty m row.upc (row.qty - r)).linesOf m).map
                (fun l => l.upc)).Nodup
              rw [hLnew]
              exact List.Nodup.sublist ((List.filter_sublist _).map _) hnd
            · intro l hl
              have hl' : l ∈ (s.store.update_line_qty m row.upc (row.qty - r)).linesOf m :=
                hl
              rw [hLnew] at hl'
              exact hq l (List.mem_of_mem_filter hl')
            · intro u
              show (s.store.update_line_qty m row.upc (row.qty - r)).curQty m u ≤ orig u
              unfold Store.curQty
              rw [hLnew]
              by_cases hu : u = row.upc
              · rw [hu, lineQtySum_filter_out]
                exact le_trans (lineQtySum_nonneg _ row.upc hq) (hle row.upc)
              · rw [lineQtySum_filter_out_ne _ _ _ hu]
                exact hle u
            · show (s.store.update_line_qty m row.upc (row.qty - r)).canceledOf m =
                some false
              rw [Store.canceledOf_update_line_qty]
              exact hc
            · intro u
              show onHand? (updOnHand s.inventory row.upc r) u = _
              by_cases hu : u = row.upc
              · rw [hu]
                have hcq : (s.store.update_line_qty m row.upc (row.qty - r)).curQty m
                    row.upc = 0 := by
                  unfold Store.curQty
                  rw [hLnew]
                  exact lineQtySum_filter_out _ _
                rw [onHand?_updOnHand_self, hinv row.upc, hcq]
                cases onHand? inv₀ row.upc with
                | none => rfl
                | some x =>
                  show some (x + (orig row.upc - s.store.curQty m row.upc) + r) =
                    some (x + (orig row.upc - 0))
                  congr 1
                  omega
              · have hcq : (s.store.update_line_qty m row.upc (row.qty - r)).curQty m u =
                    s.store.curQty m u := by
                  unfold Store.curQty
                  rw [hLnew]
                  exact lineQtySum_filter_out_ne _ _ _ hu
                rw [onHand?_updOnHand_ne s.inventory row.upc u r hu, hinv u, hcq]
          · rw [if_neg hdel] at hLnew
            refine ⟨?_, ?_, ?_, Or.inl ⟨?_, ?_⟩⟩
            · show (((s.store.update_line_qty m row.upc (row.qty - r)).linesOf m).map
                (fun l => l.upc)).Nodup
              rw [hLnew, upcs_map_set]
              exact hnd
            · intro l hl
              have hl' : l ∈ (s.store.update_line_qty m row.upc (row.qty - r)).linesOf m :=
                hl
              rw [hLnew] at hl'
              simp only [List.mem_map] at hl'
              obtain ⟨a, ha, rfl⟩ := hl'
              by_cases hau : a.upc = row.upc
              · rw [if_pos (by simp [hau])]
                show (0 : Int) ≤ row.qty - r
                omega
              · rw [if_neg (by simp [hau])]
                exact hq a ha
            · intro u
              show (s.store.update_line_qty m row.upc (row.qty - r)).curQty m u ≤ orig u
              unfold Store.curQty
              rw [hLnew]
              by_cases hu : u = row.upc
              · rw [hu, lineQtySum_map_set_self _ row _ hnd hmem]
                have hb := hle row.upc
                rw [hcur] at hb
                omega
              · rw [lineQtySum_map_set_ne _ _ _ _ hu]
                exact hle u
            · show (s.store.update_line_qty m row.upc (row.qty - r)).canceledOf m =
                some false
              rw [Store.canceledOf_update_line_qty]
              exact hc
            · intro u
              show onHand? (updOnHand s.inventory row.upc r) u = _
              by_cases hu : u = row.upc
              · rw [hu]
                have hcq : (s.store.update_line_qty m row.upc (row.qty - r)).curQty m
                    row.upc = row.qty - r := by
                  unfold Store.curQty
                  rw [hLnew]
                  exact lineQtySum_map_set_self _ row _ hnd hmem
                rw [onHand?_updOnHand_self, hinv row.upc, hcq]
                cases onHand? inv₀ row.upc with
                | none => rfl
                | some x =>
                  show some (x + (orig row.upc - s.store.curQty m row.upc) + r) =
                    some (x + (orig row.upc - (row.qty - r)))
                  congr 1
                  omega
              · have hcq : (s.store.update_line_qty m row.upc (row.qty - r)).curQty m u =
                    s.store.curQty m u := by
                  unfold Store.curQty
                  rw [hLnew]
                  exact lineQtySum_map_set_ne _ _ _ _ hu
                rw [onHand?_updOnHand_ne s.inventory row.upc u r hu, hinv u, hcq]
    · have hgr : s.store.get_receipt m =
          some (true, (s.store.linesOf m).map ReceiptLine.toSaleLine) := by
        unfold Store.get_receipt
        rw [hc]
      rw [show applyRet s (RetOp.partRet m idx r) = (returnPartial s m idx r).2 from rfl,
        returnPartial_canceled s m idx r _ hgr]
      exact ⟨hnd, hq, hle, Or.inr ⟨hc, hinv⟩⟩
theorem RetInv_run (inv₀ : List Item) (no : Nat) (orig : String → Int) :
    ∀ (ops : List RetOp) (s : AppState), (∀ op ∈ ops, op.target = no) →
      RetInv inv₀ no orig s → RetInv inv₀ no orig (applyRets s ops) := by
  intro ops
  induction ops with
  | nil => exact fun s _ hI => hI
  | cons op tl ih =>
    intro s hops hI
    exact ih (applyRet s op) (fun o ho => hops o (List.mem_cons_of_mem _ ho))
      (RetInv_step inv₀ no orig s op (hops op (List.mem_cons_self _ _)) hI)

/-- C3 counterexample: the claim fails when a receipt holds two lines
with the same UPC.  Receipt 1 sold UPC "A" as two lines of 1 and 5 units
(6 in total).  A partial return of 1 unit from line index 1 commits, but
overwrites BOTH rows to quantity 4 — line 0 jumps from 1 to 4, the
receipt total grows from 6 to 8 while inventory only gains 1.  A second
partial return of 4 units from line 0 (which originally sold 1 unit)
then commits, deleting every "A" row.  The receipt is never canceled,
all its lines are consumed, yet inventory regained only 5 of the 6
units the sale removed — and line 0 received a 4-unit return against 1
unit sold. -/
theorem returns_break_conservation_dup_upc :
    (returnPartial ⟨[⟨"A", "a", 9, 0, 0, 0, 1⟩],
        ⟨1, [(1, false)], [⟨1, "A", "a", 1, 1⟩, ⟨1, "A", "a", 1, 5⟩]⟩⟩ 1 1 1).1 =
      RetOutcome.committed ∧
    ((returnPartial ⟨[⟨"A", "a", 9, 0, 0, 0, 1⟩],
        ⟨1, [(1, false)], [⟨1, "A", "a", 1, 1⟩, ⟨1, "A", "a", 1, 5⟩]⟩⟩ 1 1 1).2.store.linesOf
      1).map (fun l => l.qty) = [4, 4] ∧
    (returnPartial (returnPartial ⟨[⟨"A", "a", 9, 0, 0, 0, 1⟩],
        ⟨1, [(1, false)], [⟨1, "A", "a", 1, 1⟩, ⟨1, "A", "a", 1, 5⟩]⟩⟩ 1 1 1).2 1 0 4).1 =
      RetOutcome.committed ∧
    (returnPartial (returnPartial ⟨[⟨"A", "a", 9, 0, 0, 0, 1⟩],
        ⟨1, [(1, false)], [⟨1, "A", "a", 1, 1⟩, ⟨1, "A", "a", 1, 5⟩]⟩⟩ 1 1 1).2 1 0
          4).2.store.canceledOf 1 = some false ∧
    (returnPartial (returnPartial ⟨[⟨"A", "a", 9, 0, 0, 0, 1⟩],
        ⟨1, [(1, false)], [⟨1, "A", "a", 1, 1⟩, ⟨1, "A", "a", 1, 5⟩]⟩⟩ 1 1 1).2 1 0
          4).2.store.linesOf 1 = [] ∧
    onHand? (returnPartial (returnPartial ⟨[⟨"A", "a", 9, 0, 0, 0, 1⟩],
        ⟨1, [(1, false)], [⟨1, "A", "a", 1, 1⟩, ⟨1, "A", "a", 1, 5⟩]⟩⟩ 1 1 1).2 1 0
          4).2.inventory "A" = some 5 := by
  decide

/-- C3 amended (restricted to receipts whose lines carry pairwise
distinct item ids, which excludes the duplicate-UPC aliasing of
`update_line_qty`): starting from an open receipt with nonnegative line
quantities, after any sequence of full/partial returns addressed to it,
each UPC's remaining line quantity stays between 0 and the quantity at
the start (so the units ever returned per line never exceed the units
sold), and the inventory restored per UPC equals exactly the quantity
removed from that receipt line — original minus remaining while the
receipt stays open, and the full original once it has been canceled. -/
theorem returns_conservation_distinct_upcs (s₀ : AppState) (no : Nat)
    (ops : List RetOp)
    (hnd : ((s₀.store.linesOf no).map (fun l => l.upc)).Nodup)
    (hq : ∀ l ∈ s₀.store.linesOf no, 0 ≤ l.qty)
    (hopen : s₀.store.canceledOf no = some false)
    (hops : ∀ op ∈ ops, op.target = no) :
    (∀ u, 0 ≤ (applyRets s₀ ops).store.curQty no u ∧
        (applyRets s₀ ops).store.curQty no u ≤ s₀.store.curQty no u) ∧
    ((applyRets s₀ ops).store.canceledOf no = some false →
      ∀ u, onHand? (applyRets s₀ ops).inventory u =
        (onHand? s₀.inventory u).map
          (fun x => x + (s₀.store.curQty no u - (applyRets s₀ ops).store.curQty no u))) ∧
    ((applyRets s₀ ops).store.canceledOf no = some true →
      ∀ u, onHand? (applyRets s₀ ops).inventory u =
        (onHand? s₀.inventory u).map (fun x => x + s₀.store.curQty no u)) := by
  have hI0 : RetInv s₀.inventory no (fun u => s₀.store.curQty no u) s₀ := by
    refine ⟨hnd, hq, fun u => le_rfl, Or.inl ⟨hopen, fun u => ?_⟩⟩
    cases h : onHand? s₀.inventory u <;> simp [h]
  have hrun := RetInv_run s₀.inventory no (fun u => s₀.store.curQty no u) ops s₀ hops hI0
  obtain ⟨hnd', hq', hle', hbr⟩ := hrun
  refine ⟨fun u => ⟨lineQtySum_nonneg _ u hq', hle' u⟩, ?_, ?_⟩
  · intro hcf u
    rcases hbr with ⟨_, hinv⟩ | ⟨hc, hinv⟩
    · exact hinv u
    · rw [hcf] at hc
      cases hc
  · intro hct u
    rcases hbr with ⟨hc, hinv⟩ | ⟨_, hinv⟩
    · rw [hct] at hc
      cases hc
    · exact hinv u

/-- Witness for the amended C3: one partial return of 2 of 5 units. -/
theorem returns_conservation_distinct_upcs_witness :
    ((((⟨[⟨"Y", "y", 20, 0, 0, 15, 2⟩],
        ⟨1, [(1, false)], [⟨1, "Y", "y", 2, 5⟩]⟩⟩ : AppState).store.linesOf 1).map
          (fun l => l.upc)).Nodup) ∧
    (∀ l ∈ (⟨[⟨"Y", "y", 20, 0, 0, 15, 2⟩],
        ⟨1, [(1, false)], [⟨1, "Y", "y", 2, 5⟩]⟩⟩ : AppState).store.linesOf 1,
      0 ≤ l.qty) ∧
    ((⟨[⟨"Y", "y", 20, 0, 0, 15, 2⟩],
        ⟨1, [(1, false)], [⟨1, "Y", "y", 2, 5⟩]⟩⟩ : AppState).store.canceledOf 1 =
      some false) ∧
    (∀ op ∈ [RetOp.partRet 1 0 2], op.target = 1) ∧
    ((∀ u, 0 ≤ (applyRets ⟨[⟨"Y", "y", 20, 0, 0, 15, 2⟩],
          ⟨1, [(1, false)], [⟨1, "Y", "y", 2, 5⟩]⟩⟩ [RetOp.partRet 1 0 2]).store.curQty 1 u ∧
        (applyRets ⟨[⟨"Y", "y", 20, 0, 0, 15, 2⟩],
          ⟨1, [(1, false)], [⟨1, "Y", "y", 2, 5⟩]⟩⟩ [RetOp.partRet 1 0 2]).store.curQty 1 u ≤
          (⟨[⟨"Y", "y", 20, 0, 0, 15, 2⟩],
          ⟨1, [(1, false)], [⟨1, "Y", "y", 2, 5⟩]⟩⟩ : AppState).store.curQty 1 u) ∧
      ((applyRets ⟨[⟨"Y", "y", 20, 0, 0, 15, 2⟩],
          ⟨1, [(1, false)], [⟨1, "Y", "y", 2, 5⟩]⟩⟩ [RetOp.partRet 1 0 2]).store.canceledOf 1 =
          some false →
        ∀ u, onHand? (applyRets ⟨[⟨"Y", "y", 20, 0, 0, 15, 2⟩],
            ⟨1, [(1, false)], [⟨1, "Y", "y", 2, 5⟩]⟩⟩ [RetOp.partRet 1 0 2]).inventory u =
          (onHand? [⟨"Y", "y", 20, 0, 0, 15, 2⟩] u).map
            (fun x => x + ((⟨[⟨"Y", "y", 20, 0, 0, 15, 2⟩],
              ⟨1, [(1, false)], [⟨1, "Y", "y", 2, 5⟩]⟩⟩ : AppState).store.curQty 1 u -
              (applyRets ⟨[⟨"Y", "y", 20, 0, 0, 15, 2⟩],
              ⟨1, [(1, false)], [⟨1, "Y", "y", 2, 5⟩]⟩⟩
                [RetOp.partRet 1 0 2]).store.curQty 1 u))) ∧
      ((applyRets ⟨[⟨"Y", "y", 20, 0, 0, 15, 2⟩],
          ⟨1, [(1, false)], [⟨1, "Y", "y", 2, 5⟩]⟩⟩ [RetOp.partRet 1 0 2]).store.canceledOf 1 =
          some true →
        ∀ u, onHand? (applyRets ⟨[⟨"Y", "y", 20, 0, 0, 15, 2⟩],
            ⟨1, [(1, false)], [⟨1, "Y", "y", 2, 5⟩]⟩⟩ [RetOp.partRet 1 0 2]).inventory u =
          (onHand? [⟨"Y", "y", 20, 0, 0, 15, 2⟩] u).map
            (fun x => x + (⟨[⟨"Y", "y", 20, 0, 0, 15, 2⟩],
              ⟨1, [(1, false)], [⟨1, "Y", "y", 2, 5⟩]⟩⟩ : AppState).store.curQty 1 u))) :=
  ⟨by decide, by decide, by decide, by decide,
   returns_conservation_distinct_upcs ⟨[⟨"Y", "y", 20, 0, 0, 15, 2⟩],
       ⟨1, [(1, false)], [⟨1, "Y", "y", 2, 5⟩]⟩⟩ 1 [RetOp.partRet 1 0 2]
     (by decide) (by decide) (by decide) (by decide)⟩
